import Mathlib

/-!
Verification of the `house_report` photo-report generator against its
specification.  The Python source (`house_report.py`) is shallowly embedded
below: pure functions become Lean functions, the effectful top-level flow
becomes explicit state passing over a small filesystem model, and external
collaborators (the Pillow imaging library, the `pandoc` converter process)
are modelled at the granularity the program relies on.

Modelling conventions, stated once:
* Python `float` arithmetic in `shrink_image` is modelled bit-exactly:
  a positive IEEE-754 binary64 value is an exact dyadic rational,
  represented as a pair `(num, k)` standing for `num / 2^k`, and each
  division performs one correct rounding to 53 significant bits with ties
  to even (`fl64N`), as the hardware does for values in the normal range —
  which all of this program's quantities inhabit (no subnormals, no
  overflow, sizes well below `2^53`).  `int()` on a non-negative value is
  truncation, i.e. floor.
* Python `bytes` are `List Nat` (each element intended `< 256`).
* EXIF dictionaries are association lists from numeric tag to a dynamically
  typed value (`PyVal`), mirroring that Pillow's `getexif` yields values of
  several Python types.
-/

namespace HouseReport

/-- A dynamically typed Python value as it can occur in an EXIF dictionary
or flow into an f-string: a byte string, a text string, or an integer. -/
inductive PyVal where
  | vbytes (bs : List Nat)
  | vstr (s : String)
  | vint (n : Int)
deriving DecidableEq

/-- A decoded Pillow image: dimensions, pixel payload and EXIF dictionary.
Pixel values themselves are never inspected by the program's report logic,
so resampling and pixel-level transposition keep the payload; dimensions
and EXIF handling are modelled exactly. -/
structure Image where
  width : Nat
  height : Nat
  pixels : List Nat
  exif : List (Nat × PyVal)
deriving DecidableEq

/-- `dict.get`-style lookup in an EXIF association list (first match). -/
def exifLookup (ex : List (Nat × PyVal)) (tag : Nat) : Option PyVal :=
  match ex with
  | [] => none
  | (t, v) :: rest => if t = tag then some v else exifLookup rest tag

/-- Deletion of a tag from an EXIF association list, as Pillow's
`exif_transpose` deletes the orientation tag. -/
def exifRemove (ex : List (Nat × PyVal)) (tag : Nat) : List (Nat × PyVal) :=
  match ex with
  | [] => []
  | (t, v) :: rest =>
    if t = tag then exifRemove rest tag else (t, v) :: exifRemove rest tag

/-- Fuel-bounded binary logarithm: `log2fuel fuel n` is the position of
the leading bit of `n` (i.e. `Nat.log2 n`) whenever `n < 2 ^ fuel`.  The
structural fuel keeps the function kernel-reducible on literals. -/
def log2fuel : Nat → Nat → Nat
  | 0, _ => 0
  | fuel + 1, n => if 2 ≤ n then log2fuel fuel (n / 2) + 1 else 0

/-- Binary logarithm with fuel 128: correct for every `n < 2 ^ 128`,
far beyond any quantity this program computes. -/
def natLog2 (n : Nat) : Nat := log2fuel 128 n

/-- Round the fraction `num / den` to the nearest integer, ties to even —
the IEEE-754 default rounding applied to a significand. -/
def rne (num den : Nat) : Nat :=
  if 2 * (num % den) > den then num / den + 1
  else if 2 * (num % den) < den then num / den
  else if (num / den) % 2 = 0 then num / den else num / den + 1

/-- The binary exponent of the positive rational `n / d`: the unique `e`
with `2 ^ e ≤ n / d < 2 ^ (e + 1)` (for `n, d` below `2 ^ 128`). -/
def floorLog2Q (n d : Nat) : Int :=
  if 2 ^ ((natLog2 n : Int) - natLog2 d).toNat * d ≤
      n * 2 ^ (-((natLog2 n : Int) - natLog2 d)).toNat then
    (natLog2 n : Int) - natLog2 d
  else (natLog2 n : Int) - natLog2 d - 1

/-- Model of an IEEE-754 binary64 operation result: the positive rational
`n / d` correctly rounded to 53 significant bits, ties to even, returned
as an exact dyadic pair `(num, k)` whose value is `num / 2 ^ k`.  Faithful
for values in the normal, non-overflowing range, where all of this
program's floats live. -/
def fl64N (n d : Nat) : Nat × Nat :=
  (rne (n * 2 ^ (52 - floorLog2Q n d).toNat)
      (d * 2 ^ (floorLog2Q n d - 52).toNat)
    * 2 ^ (floorLog2Q n d - 52).toNat,
   (52 - floorLog2Q n d).toNat)

/-- Python float division `a / b` of an integer `a` by the double
`b = (num, k)`: the exact quotient `a · 2^k / num`, correctly rounded
once.  (CPython converts `a` to a double first, which is exact for
`a ≤ 2^53`, the only sizes the theorems below use.) -/
def pyDivND (a : Nat) (b : Nat × Nat) : Nat × Nat := fl64N (a * 2 ^ b.2) b.1

/-- Python `int()` of the non-negative double `(num, k)`: truncation
toward zero, i.e. `num / 2^k` in floor division. -/
def pyInt (t : Nat × Nat) : Nat := t.1 / 2 ^ t.2

/-- The exact rational value of a dyadic pair — proof-side only. -/
def dval (t : Nat × Nat) : ℚ := (t.1 : ℚ) / 2 ^ t.2

/-- `2 ^ p` for an integer `p`, written with natural-number powers. -/
def pow2Int (p : Int) : ℚ := (2 : ℚ) ^ p.toNat / (2 : ℚ) ^ (-p).toNat

/-- `Image.resize` of the Pillow library: new dimensions as given; the
bicubically resampled pixel payload is not modelled pixel-wise (no claim
refers to pixel values); the `info`/EXIF dictionary is carried over to the
new image, as Pillow's `Image._new` copies `info`. -/
def resize (img : Image) (w h : Nat) : Image :=
  { width := w, height := h, pixels := img.pixels, exif := img.exif }

/-- Whether an EXIF orientation value is one of the four transpositions
(5, 6, 7, 8) that exchange width and height. -/
def isSwapOrientation (v : Option PyVal) : Bool :=
  match v with
  | some (PyVal.vint n) => n == 5 || n == 6 || n == 7 || n == 8
  | _ => false

/-- `ImageOps.exif_transpose` of the Pillow library: if the orientation tag
(274) holds one of the values 2–8 the image is transposed accordingly —
values 5–8 exchange width and height, values 2–4 keep them — and the
orientation tag is deleted from the result's EXIF; otherwise the image is
returned unchanged.  The pixel permutation is not modelled pixel-wise. -/
def exif_transpose (img : Image) : Image :=
  match exifLookup img.exif 274 with
  | some (PyVal.vint n) =>
    if n == 2 || n == 3 || n == 4 then
      { img with exif := exifRemove img.exif 274 }
    else if n == 5 || n == 6 || n == 7 || n == 8 then
      { width := img.height, height := img.width,
        pixels := img.pixels, exif := exifRemove img.exif 274 }
    else img
  | _ => img

/-- `shrink_image` of the source: `scale = max(w, h) / 900` (integer
true division, one correct rounding to binary64),
`scaled_w = int(w / scale)`, `scaled_h = int(h / scale)` (each `/` one
correctly rounded binary64 division, `int()` truncation), then resize and
apply `exif_transpose`.  The float arithmetic is modelled bit-exactly via
dyadic rationals; a zero-dimension image (where Python would raise
`ZeroDivisionError`) cannot come out of `Image.open`. -/
def shrink_image (img : Image) : Image :=
  let max_dim := max img.width img.height
  let scale := fl64N max_dim 900
  let scaled_w := pyInt (pyDivND img.width scale)
  let scaled_h := pyInt (pyDivND img.height scale)
  exif_transpose (resize img scaled_w scaled_h)

/-- Modelled from the spec: rounding to the nearest integer of the fraction
`a / b` (half away from zero), computed as `(2a + b) / (2b)` in floor
division.  This embeds the spec's `round(origW/scale)` with
`scale = max/900`, i.e. `round(a/b)` for `a = origW * 900`, `b = max`.
Python's `round` resolves exact ties to even; the instances at which this
definition is used below are not ties, where all conventions agree. -/
def specRound (a b : Nat) : Nat := (2 * a + b) / (2 * b)

/-- Modelled from the spec: the output dimensions the claim asserts for the
Image Normalizer, `newW = round(W/scale)`, `newH = round(H/scale)` with
`scale = max(W, H) / 900`. -/
def shrink_dims_claim (w h : Nat) : Nat × Nat :=
  let m := max w h
  (specRound (w * 900) m, specRound (h * 900) m)

/-- Modelled from the spec: `round(x, 2)` applied to the aspect ratio
`w / h`, embedded exactly as rounding `100 * w / h` to the nearest integer
(half away from zero, over ℚ; the instances used below are not ties). -/
def aspectRatio2dp (w h : Nat) : Int :=
  round ((100 * w : ℚ) / (h : ℚ))

theorem exifLookup_exifRemove (ex : List (Nat × PyVal)) (t t' : Nat)
    (h : t ≠ t') : exifLookup (exifRemove ex t) t' = exifLookup ex t' := by
  induction ex with
  | nil => rfl
  | cons p rest ih =>
    obtain ⟨a, v⟩ := p
    by_cases ha : a = t
    · subst ha
      simp [exifRemove, exifLookup, ih, h]
    · by_cases ha' : a = t'
      · subst ha'
        simp [exifRemove, exifLookup, ha]
      · simp [exifRemove, exifLookup, ha, ha', ih]

/-- `shrink_image` preserves every EXIF tag other than orientation (274):
resizing copies the EXIF dictionary and `exif_transpose` deletes at most
tag 274. -/
theorem exifLookup_shrink_image (img : Image) (t : Nat) (h : t ≠ 274) :
    exifLookup (shrink_image img).exif t = exifLookup img.exif t := by
  unfold shrink_image exif_transpose resize
  rcases hv : exifLookup img.exif 274 with _ | v
  · simp [hv]
  · rcases v with bs | s | n
    · simp [hv]
    · simp [hv]
    · simp only [hv]
      by_cases h2 : (n == 2 || n == 3 || n == 4) = true
      · simp [h2, exifLookup_exifRemove _ _ _ (Ne.symm h)]
      · by_cases h5 : (n == 5 || n == 6 || n == 7 || n == 8) = true
        · simp [h2, h5, exifLookup_exifRemove _ _ _ (Ne.symm h)]
        · simp [h2, h5]

theorem log2fuel_spec (fuel n : Nat) (h1 : 1 ≤ n) (h2 : n < 2 ^ fuel) :
    2 ^ log2fuel fuel n ≤ n ∧ n < 2 ^ (log2fuel fuel n + 1) := by
  induction fuel generalizing n with
  | zero =>
    have : (2:ℕ) ^ 0 = 1 := rfl
    omega
  | succ fuel ih =>
    rw [log2fuel]
    by_cases hc : 2 ≤ n
    · have hrec := ih (n / 2) (by omega) (by
        have he : (2:ℕ) ^ (fuel + 1) = 2 * 2 ^ fuel := by ring
        omega)
      rw [if_pos hc]
      obtain ⟨hl, hu⟩ := hrec
      constructor
      · have e1 : (2:ℕ) ^ (log2fuel fuel (n / 2) + 1)
            = 2 * 2 ^ log2fuel fuel (n / 2) := by ring
        omega
      · have e1 : (2:ℕ) ^ (log2fuel fuel (n / 2) + 1 + 1)
            = 2 * 2 ^ (log2fuel fuel (n / 2) + 1) := by ring
        omega
    · rw [if_neg hc]
      have e0 : (2:ℕ) ^ 0 = 1 := rfl
      have e1 : (2:ℕ) ^ 1 = 2 := rfl
      omega

theorem pow2Int_eq (p : Int) : pow2Int p = (2:ℚ) ^ p := by
  unfold pow2Int
  rcases p with k | k
  · have h1 : (Int.ofNat k).toNat = k := rfl
    have h2 : (-(Int.ofNat k)).toNat = 0 := by
      show (-(k : Int)).toNat = 0
      omega
    rw [h1, h2, pow_zero, div_one]
    rw [show Int.ofNat k = (k : Int) from rfl, zpow_natCast]
  · have h1 : (Int.negSucc k).toNat = 0 := rfl
    have h2 : (-(Int.negSucc k)).toNat = k + 1 := rfl
    rw [h1, h2, pow_zero, zpow_negSucc, one_div]

theorem pow2Int_pos (p : Int) : 0 < pow2Int p := by
  unfold pow2Int
  positivity

theorem pow2Int_mul_inv (p : Int) : pow2Int p * pow2Int (-p) = 1 := by
  rw [pow2Int_eq, pow2Int_eq, ← zpow_add₀ (by norm_num : (2:ℚ) ≠ 0)]
  simp

theorem zpow_le_div_iff_nat (n d : Nat) (hd : 0 < d) (p : Int) :
    (2:ℚ) ^ p ≤ (n : ℚ) / d ↔ 2 ^ p.toNat * d ≤ n * 2 ^ (-p).toNat := by
  rw [← pow2Int_eq, pow2Int,
    div_le_div_iff₀ (by positivity) (by exact_mod_cast hd)]
  exact_mod_cast Iff.rfl

theorem div_lt_zpow_iff_nat (n d : Nat) (hd : 0 < d) (p : Int) :
    (n : ℚ) / d < (2:ℚ) ^ p ↔ n * 2 ^ (-p).toNat < 2 ^ p.toNat * d := by
  rw [← pow2Int_eq, pow2Int,
    div_lt_div_iff₀ (by exact_mod_cast hd) (by positivity)]
  exact_mod_cast Iff.rfl

theorem floorLog2Q_spec (n d : Nat) (hn : 1 ≤ n) (hd : 1 ≤ d)
    (hn' : n < 2 ^ 128) (hd' : d < 2 ^ 128) :
    (2:ℚ) ^ floorLog2Q n d ≤ (n:ℚ) / d ∧
      (n:ℚ) / d < 2 ^ (floorLog2Q n d + 1) := by
  obtain ⟨ha1, ha2⟩ := log2fuel_spec 128 n hn hn'
  obtain ⟨hb1, hb2⟩ := log2fuel_spec 128 d hd hd'
  have hdq : (0:ℚ) < d := by exact_mod_cast hd
  unfold floorLog2Q
  set a := natLog2 n with hadef
  set b := natLog2 d with hbdef
  set p : Int := (a : Int) - (b : Int) with hp
  split_ifs with hc
  · refine ⟨(zpow_le_div_iff_nat n d (by omega) p).2 hc, ?_⟩
    have hq1 : (n:ℚ) < 2 ^ (a + 1) := by exact_mod_cast ha2
    have hq2 : (2:ℚ) ^ b ≤ (d:ℚ) := by exact_mod_cast hb1
    have key : (n:ℚ) / d < (2:ℚ) ^ (a + 1) / 2 ^ b :=
      div_lt_div₀ hq1 hq2 (by positivity) (by positivity)
    have conv1 : (2:ℚ) ^ (a + 1) / 2 ^ b = 2 ^ (p + 1) := by
      rw [← zpow_natCast (2:ℚ) (a + 1), ← zpow_natCast (2:ℚ) b,
        ← zpow_sub₀ (by norm_num : (2:ℚ) ≠ 0)]
      congr 1
      rw [hp]
      push_cast
      ring
    rw [← conv1]
    exact key
  · push_neg at hc
    constructor
    · have hq1 : (2:ℚ) ^ a ≤ (n:ℚ) := by exact_mod_cast ha1
      have hq2 : (d:ℚ) < 2 ^ (b + 1) := by exact_mod_cast hb2
      have key : (2:ℚ) ^ a / 2 ^ (b + 1) ≤ (n:ℚ) / d :=
        div_le_div₀ (by positivity) hq1 hdq (le_of_lt hq2)
      have conv1 : (2:ℚ) ^ a / 2 ^ (b + 1) = 2 ^ (p - 1) := by
        rw [← zpow_natCast (2:ℚ) a, ← zpow_natCast (2:ℚ) (b + 1),
          ← zpow_sub₀ (by norm_num : (2:ℚ) ≠ 0)]
        congr 1
        rw [hp]
        push_cast
        ring
      rw [← conv1]
      exact key
    · have h2 := (div_lt_zpow_iff_nat n d (by omega) p).2 hc
      have hpp : p - 1 + 1 = p := by ring
      rw [hpp]
      exact h2

theorem rne_err (num den : Nat) (hd : 0 < den) :
    |(rne num den : ℚ) - (num : ℚ) / den| ≤ 1 / 2 := by
  have hdq : (0:ℚ) < den := by exact_mod_cast hd
  have hm : den * (num / den) + num % den = num := Nat.div_add_mod num den
  have hrlt : num % den < den := Nat.mod_lt _ hd
  have hcast : (den:ℚ) * ((num / den : ℕ) : ℚ) + ((num % den : ℕ) : ℚ)
      = (num : ℚ) := by exact_mod_cast congrArg (Nat.cast (R := ℚ)) hm
  have key : (num : ℚ) / den
      = ((num / den : ℕ) : ℚ) + ((num % den : ℕ) : ℚ) / den := by
    field_simp
    linarith
  have hB1 : ((num % den : ℕ) : ℚ) / den < 1 := by
    rw [div_lt_one hdq]
    exact_mod_cast hrlt
  have hB0 : (0:ℚ) ≤ ((num % den : ℕ) : ℚ) / den := by positivity
  rw [key]
  unfold rne
  split_ifs with h1 h2 h3
  · have hB2 : (1:ℚ) / 2 < ((num % den : ℕ) : ℚ) / den := by
      rw [div_lt_div_iff₀ (by norm_num) hdq]
      have : (den:ℚ) < 2 * ((num % den : ℕ) : ℚ) := by exact_mod_cast h1
      linarith
    rw [abs_le]
    push_cast
    constructor <;> linarith
  · have hB2 : ((num % den : ℕ) : ℚ) / den < 1 / 2 := by
      rw [div_lt_div_iff₀ hdq (by norm_num)]
      have : 2 * ((num % den : ℕ) : ℚ) < (den:ℚ) := by exact_mod_cast h2
      linarith
    rw [abs_le]
    constructor <;> linarith
  · have htie : 2 * (num % den) = den := by omega
    have hB2 : ((num % den : ℕ) : ℚ) / den = 1 / 2 := by
      rw [div_eq_div_iff (ne_of_gt hdq) (by norm_num : (2:ℚ) ≠ 0)]
      have : 2 * ((num % den : ℕ) : ℚ) = (den:ℚ) := by exact_mod_cast htie
      linarith
    rw [abs_le]
    constructor <;> linarith
  · have htie : 2 * (num % den) = den := by omega
    have hB2 : ((num % den : ℕ) : ℚ) / den = 1 / 2 := by
      rw [div_eq_div_iff (ne_of_gt hdq) (by norm_num : (2:ℚ) ≠ 0)]
      have : 2 * ((num % den : ℕ) : ℚ) = (den:ℚ) := by exact_mod_cast htie
      linarith
    rw [abs_le]
    push_cast
    constructor <;> linarith

theorem dval_fl64N (n d : Nat) :
    dval (fl64N n d) =
      (rne (n * 2 ^ (52 - floorLog2Q n d).toNat)
          (d * 2 ^ (floorLog2Q n d - 52).toNat) : ℚ)
        * pow2Int (floorLog2Q n d - 52) := by
  simp only [dval, fl64N, pow2Int]
  rw [show -(floorLog2Q n d - 52) = 52 - floorLog2Q n d from by ring]
  push_cast
  ring

/-- The relative error of one correctly rounded binary64 operation is at
most one part in `2^53` of the exact value. -/
theorem fl64N_err (n d : Nat) (hn : 1 ≤ n) (hd : 1 ≤ d)
    (hn' : n < 2 ^ 128) (hd' : d < 2 ^ 128) :
    |dval (fl64N n d) - (n:ℚ) / d| ≤ ((n:ℚ) / d) / 2 ^ 53 := by
  obtain ⟨hlo, hhi⟩ := floorLog2Q_spec n d hn hd hn' hd'
  have hdv := dval_fl64N n d
  set e := floorLog2Q n d with he
  set q : ℚ := (n:ℚ) / d with hq
  set num := n * 2 ^ (52 - e).toNat with hnum
  set den := d * 2 ^ (e - 52).toNat with hden
  set B := pow2Int (e - 52) with hBdef
  have hdenpos : 0 < den := by
    have := Nat.two_pow_pos (e - 52).toNat
    rw [hden]
    exact Nat.mul_pos (by omega) this
  have hdq : (0:ℚ) < d := by exact_mod_cast hd
  have hB := pow2Int_pos (e - 52)
  have hs : ((num:ℚ)) / (den:ℚ) = q * pow2Int (52 - e) := by
    rw [hnum, hden, hq]
    push_cast
    rw [pow2Int, show -(52 - e) = e - 52 from by ring]
    field_simp
  have hsB : ((num:ℚ)) / (den:ℚ) * B = q := by
    rw [hs, hBdef, show (52 : Int) - e = -(e - 52) from by ring]
    calc q * pow2Int (-(e - 52)) * pow2Int (e - 52)
        = q * (pow2Int (e - 52) * pow2Int (-(e - 52))) := by ring
      _ = q := by rw [pow2Int_mul_inv]; ring
  have hr := rne_err num den hdenpos
  have key : dval (fl64N n d) - q = ((rne num den : ℚ) - (num:ℚ) / den) * B := by
    rw [hdv, ← hsB]
    ring
  rw [key, abs_mul, abs_of_pos hB]
  have step1 : |(rne num den : ℚ) - (num:ℚ) / den| * B ≤ 1 / 2 * B :=
    mul_le_mul_of_nonneg_right hr (le_of_lt hB)
  have hB52 : B * 2 ^ 52 ≤ q := by
    have hBe : B * (2:ℚ) ^ 52 = (2:ℚ) ^ e := by
      rw [hBdef, pow2Int_eq, ← zpow_natCast (2:ℚ) 52,
        ← zpow_add₀ (by norm_num : (2:ℚ) ≠ 0)]
      congr 1
      push_cast
      ring
    rw [hBe]
    exact hlo
  have c52 : (2:ℚ) ^ 52 = 4503599627370496 := by norm_num
  have c53 : (2:ℚ) ^ 53 = 9007199254740992 := by norm_num
  calc |(rne num den : ℚ) - (num:ℚ) / den| * B ≤ 1 / 2 * B := step1
    _ ≤ q / 2 ^ 53 := by
        rw [c53]
        rw [c52] at hB52
        linarith

theorem natDiv_le_of_ratLt (a d k : Nat) (hd : 0 < d)
    (h : (a:ℚ) / d < (k : ℚ) + 1) : a / d ≤ k := by
  have h1 : (a:ℚ) < ((k : ℚ) + 1) * d :=
    (div_lt_iff₀ (by exact_mod_cast hd)).1 h
  have h2 : a < (k + 1) * d := by exact_mod_cast h1
  have h3 : a / d < k + 1 := (Nat.div_lt_iff_lt_mul hd).2 h2
  omega

theorem le_natDiv_of_ratLe (a d k : Nat) (hd : 0 < d)
    (h : (k:ℚ) ≤ (a:ℚ) / d) : k ≤ a / d := by
  have h1 : (k:ℚ) * d ≤ a := (le_div_iff₀ (by exact_mod_cast hd)).1 h
  have h2 : k * d ≤ a := by exact_mod_cast h1
  exact (Nat.le_div_iff_mul_le hd).2 h2

set_option maxRecDepth 8000 in
set_option maxHeartbeats 2000000 in
/-- Core float error analysis of the normalizer's dimension computation:
for `1 ≤ x ≤ m ≤ 2^52`, `int(x / (m / 900))` computed in binary64 is at
most 900, and exactly for `x = m` (the dominant dimension) it is at least
899 — the two roundings can shave the exact 900 down to
`899.9999999999999`, as a 3 × 3 input does. -/
theorem shrink_scaled_bounds (x m : Nat) (hx : 1 ≤ x) (hxm : x ≤ m)
    (hmb : m ≤ 2 ^ 52) :
    pyInt (pyDivND x (fl64N m 900)) ≤ 900 ∧
      (x = m → 899 ≤ pyInt (pyDivND x (fl64N m 900))) := by
  have hm1 : 1 ≤ m := le_trans hx hxm
  have hm128 : m < 2 ^ 128 := lt_of_le_of_lt hmb (by norm_num)
  have hser := fl64N_err m 900 hm1 (by norm_num) hm128 (by norm_num)
  obtain ⟨hel, heu⟩ := floorLog2Q_spec m 900 hm1 (by norm_num) hm128 (by norm_num)
  have hs2 : (fl64N m 900).2 = (52 - floorLog2Q m 900).toNat := rfl
  generalize hsdef : fl64N m 900 = s at hser hs2 ⊢
  generalize hedef : floorLog2Q m 900 = e at hel heu hs2
  clear hsdef hedef
  push_cast at hser hel heu
  have hm_eq : (m:ℚ) = 900 * ((m:ℚ) / 900) := by field_simp
  have hq0pos : 0 < (m:ℚ) / 900 := by
    have hmq : (0:ℚ) < m := by exact_mod_cast hm1
    positivity
  have hq0b : (m:ℚ) / 900 ≤ 2 ^ 52 := by
    rw [div_le_iff₀ (by norm_num : (0:ℚ) < 900)]
    have hm2 : (m:ℚ) ≤ 2 ^ 52 := by exact_mod_cast hmb
    have hp : (0:ℚ) ≤ 2 ^ 52 := by positivity
    linarith
  have hq0_1 : (1:ℚ) / 900 ≤ (m:ℚ) / 900 := by
    gcongr
    exact_mod_cast hm1
  generalize hq0def : (m:ℚ) / 900 = q0 at hser hel heu hm_eq hq0pos hq0b hq0_1
  have hdvs : dval s = (s.1 : ℚ) / 2 ^ s.2 := rfl
  generalize hsvdef : dval s = sv at hser hdvs
  have hsv_lo : q0 - q0 / 2 ^ 53 ≤ sv := by
    have h := (abs_le.1 hser).1
    linarith
  have hsv_hi : sv ≤ q0 + q0 / 2 ^ 53 := by
    have h := (abs_le.1 hser).2
    linarith
  have hsmall : q0 / 2 ^ 53 < q0 := div_lt_self hq0pos (by norm_num)
  have hsv_pos : 0 < sv := by linarith
  have hs1pos : 0 < s.1 := by
    by_contra hz
    push_neg at hz
    have h0 : s.1 = 0 := by omega
    rw [hdvs, h0] at hsv_pos
    norm_num at hsv_pos
  have hval : (s.1 : ℚ) = sv * 2 ^ s.2 := by
    rw [hdvs]
    field_simp
  have he_lb : -10 ≤ e := by
    by_contra hlt
    push_neg at hlt
    have h1 : (2:ℚ) ^ (e + 1) ≤ 2 ^ (-10 : Int) :=
      zpow_le_zpow_right₀ (by norm_num) (by omega)
    have h2 : (2:ℚ) ^ (-10 : Int) = 1 / 1024 := by
      rw [show (-10 : Int) = -((10 : ℕ) : Int) from by norm_num, zpow_neg,
        zpow_natCast]
      norm_num
    rw [h2] at h1
    linarith
  have hs2b : s.2 ≤ 62 := by
    rw [hs2]
    omega
  have hn2_1 : 1 ≤ x * 2 ^ s.2 := Nat.mul_pos (by omega) (Nat.two_pow_pos _)
  have hn2_b : x * 2 ^ s.2 < 2 ^ 128 := by
    have hx52 : x ≤ 2 ^ 52 := le_trans hxm hmb
    have h2p : 2 ^ s.2 ≤ 2 ^ 62 := Nat.pow_le_pow_right (by omega) hs2b
    calc x * 2 ^ s.2 ≤ 2 ^ 52 * 2 ^ 62 := Nat.mul_le_mul hx52 h2p
      _ < 2 ^ 128 := by norm_num
  have hs1b : s.1 < 2 ^ 128 := by
    have h2p : ((2:ℚ)) ^ s.2 ≤ 2 ^ 62 :=
      pow_le_pow_right₀ (by norm_num : (1:ℚ) ≤ 2) hs2b
    have hsv_le : sv ≤ 2 ^ 53 := by
      have c : (2:ℚ) ^ 53 = 2 ^ 52 + 2 ^ 52 := by norm_num
      linarith
    have hlt : (s.1 : ℚ) < 2 ^ 128 := by
      rw [hval]
      calc sv * 2 ^ s.2 ≤ 2 ^ 53 * 2 ^ 62 := by
            apply mul_le_mul hsv_le h2p (by positivity) (by positivity)
        _ < 2 ^ 128 := by norm_num
    exact_mod_cast hlt
  have hterr := fl64N_err (x * 2 ^ s.2) s.1 hn2_1 (by omega) hn2_b hs1b
  have hgoal : pyInt (pyDivND x s)
      = (fl64N (x * 2 ^ s.2) s.1).1 / 2 ^ (fl64N (x * 2 ^ s.2) s.1).2 := rfl
  rw [hgoal]
  generalize htdef : fl64N (x * 2 ^ s.2) s.1 = t at hterr ⊢
  clear hgoal htdef
  push_cast at hterr
  have hs1ne : (s.1 : ℚ) ≠ 0 := by
    have : (0:ℚ) < s.1 := by exact_mod_cast hs1pos
    exact ne_of_gt this
  have hsvne : sv ≠ 0 := ne_of_gt hsv_pos
  have hu_eq : (x:ℚ) * 2 ^ s.2 / (s.1:ℚ) = (x:ℚ) / sv := by
    field_simp
    rw [hval]
    ring
  rw [hu_eq] at hterr
  have hxq : (0:ℚ) < x := by exact_mod_cast hx
  have hu_pos : 0 < (x:ℚ) / sv := by positivity
  have hx_eq : (x:ℚ) / sv * sv = (x:ℚ) := by field_simp
  generalize hudef : (x:ℚ) / sv = u at hterr hu_pos hx_eq
  have hdvt : dval t = (t.1 : ℚ) / 2 ^ t.2 := rfl
  generalize htvdef : dval t = tv at hterr hdvt
  have htv_val : (t.1 : ℚ) / ((2 ^ t.2 : ℕ) : ℚ) = tv := by
    rw [hdvt]
    push_cast
    ring
  constructor
  · have hu_b : u * (1 - 1 / 2 ^ 53) ≤ 900 := by
      have hxm2 : (x:ℚ) ≤ (m:ℚ) := by exact_mod_cast hxm
      have h1 : u * (q0 - q0 / 2 ^ 53) ≤ u * sv := by
        nlinarith [mul_nonneg (le_of_lt hu_pos)
          (by linarith : (0:ℚ) ≤ sv - (q0 - q0 / 2 ^ 53))]
      have h3 : u * (1 - 1 / 2 ^ 53) * q0 ≤ 900 * q0 := by nlinarith
      exact le_of_mul_le_mul_right (by nlinarith) hq0pos
    have hep : (0:ℚ) < 1 - 1 / 2 ^ 53 := by norm_num
    have hu900 : u ≤ 900 / (1 - 1 / 2 ^ 53) := by
      rw [le_div_iff₀ hep]
      exact hu_b
    have hnum : 900 / (1 - 1 / 2 ^ 53 : ℚ)
        + (900 / (1 - 1 / 2 ^ 53 : ℚ)) / 2 ^ 53 < 901 := by norm_num
    have htv901 : tv < 901 := by
      have h := (abs_le.1 hterr).2
      linarith
    apply natDiv_le_of_ratLt _ _ _ (Nat.two_pow_pos _)
    rw [htv_val]
    push_cast
    linarith
  · intro hxem
    subst hxem
    have hu_lb : 900 ≤ u * (1 + 1 / 2 ^ 53) := by
      have h1 : u * sv ≤ u * (q0 + q0 / 2 ^ 53) := by
        nlinarith [mul_nonneg (le_of_lt hu_pos)
          (by linarith : (0:ℚ) ≤ q0 + q0 / 2 ^ 53 - sv)]
      have h2 : 900 * q0 ≤ u * (1 + 1 / 2 ^ 53) * q0 := by nlinarith
      exact le_of_mul_le_mul_right (by nlinarith) hq0pos
    have hep : (0:ℚ) < 1 + 1 / 2 ^ 53 := by norm_num
    have hu900 : 900 / (1 + 1 / 2 ^ 53) ≤ u := by
      rw [div_le_iff₀ hep]
      linarith
    have hnum : (899:ℚ) < 900 / (1 + 1 / 2 ^ 53 : ℚ)
        - (900 / (1 + 1 / 2 ^ 53 : ℚ)) / 2 ^ 53 := by norm_num
    have htv899 : (899:ℚ) ≤ tv := by
      have h := (abs_le.1 hterr).1
      have hscale : (900 / (1 + 1 / 2 ^ 53 : ℚ)) / 2 ^ 53 ≤ u / 2 ^ 53 := by
        linarith
      nlinarith
    apply le_natDiv_of_ratLe _ _ _ (Nat.two_pow_pos _)
    rw [htv_val]
    push_cast
    linarith

theorem exif_transpose_dims_cases (img : Image) :
    ((exif_transpose img).width = img.width ∧
      (exif_transpose img).height = img.height) ∨
    ((exif_transpose img).width = img.height ∧
      (exif_transpose img).height = img.width) := by
  unfold exif_transpose
  rcases hv : exifLookup img.exif 274 with _ | v
  · simp [hv]
  · rcases v with bs | s | n
    · simp [hv]
    · simp [hv]
    · simp only [hv]
      split_ifs <;> simp

/-- C1 (counterexample): the claimed formulas fail on the code in two
ways.  The code truncates instead of rounding: for a 1000 × 993 image the
binary64 computation yields height 893 (`893.6999999999999…` truncated)
while the claimed `round(993/scale)` gives 894.  And `max(newW, newH)`
need not be 900: for a 3 × 3 image the two float roundings give
`int(3 / (3/900)) = int(899.9999999999999) = 899`, so the normalizer
returns 899 × 899 where the claimed formulas give 900 × 900.  Finally the
two-decimal aspect-ratio equality fails for extreme ratios: a 1000 × 7
image normalizes to 900 × 6, whose ratio rounds to 150.00 against the
original 142.86. -/
theorem C1_counterexample :
    ((shrink_image ⟨3, 3, [], []⟩).width,
        (shrink_image ⟨3, 3, [], []⟩).height) = (899, 899) ∧
    shrink_dims_claim 3 3 = (900, 900) ∧
    ((shrink_image ⟨1000, 993, [], []⟩).width,
        (shrink_image ⟨1000, 993, [], []⟩).height)
      ≠ shrink_dims_claim 1000 993 ∧
    aspectRatio2dp (shrink_image ⟨1000, 7, [], []⟩).width
        (shrink_image ⟨1000, 7, [], []⟩).height ≠ aspectRatio2dp 1000 7 := by
  refine ⟨by decide, by decide, by decide, ?_⟩
  have h1 : (shrink_image ⟨1000, 7, [], []⟩).width = 900 := by decide
  have h2 : (shrink_image ⟨1000, 7, [], []⟩).height = 6 := by decide
  rw [h1, h2]
  unfold aspectRatio2dp
  norm_num [round_eq]

/-- C1 (amended): for every image of positive dimensions (each at most
`2^52`, far beyond any decodable photo), the normalizer computes
`scale = max(W, H) / 900` and `int(W/scale)`, `int(H/scale)` in binary64
float arithmetic with truncation — not the claimed rounding — so both
output dimensions are at most 900 and the larger of the two is 899 or
900: the exact identity `max(newW, newH) == 900` of the claim is lost to
float rounding (e.g. 3 × 3 → 899 × 899) but off by at most one.  This
holds for every orientation value, since transposition at most exchanges
the two dimensions. -/
theorem C1_shrink_dims (w h : Nat) (pix : List Nat) (ex : List (Nat × PyVal))
    (hw : 1 ≤ w) (hh : 1 ≤ h) (hwb : w ≤ 2 ^ 52) (hhb : h ≤ 2 ^ 52) :
    (shrink_image ⟨w, h, pix, ex⟩).width ≤ 900 ∧
    (shrink_image ⟨w, h, pix, ex⟩).height ≤ 900 ∧
    899 ≤ max (shrink_image ⟨w, h, pix, ex⟩).width
      (shrink_image ⟨w, h, pix, ex⟩).height := by
  have hmaxb : max w h ≤ 2 ^ 52 := max_le hwb hhb
  have hw_le := (shrink_scaled_bounds w (max w h) hw (le_max_left w h) hmaxb).1
  have hh_le := (shrink_scaled_bounds h (max w h) hh (le_max_right w h) hmaxb).1
  have hge : 899 ≤ max (pyInt (pyDivND w (fl64N (max w h) 900)))
      (pyInt (pyDivND h (fl64N (max w h) 900))) := by
    rcases max_choice w h with hmw | hmh
    · have := (shrink_scaled_bounds w (max w h) hw (le_max_left w h)
        hmaxb).2 hmw.symm
      exact le_max_of_le_left this
    · have := (shrink_scaled_bounds h (max w h) hh (le_max_right w h)
        hmaxb).2 hmh.symm
      exact le_max_of_le_right this
  rcases exif_transpose_dims_cases
      (resize ⟨w, h, pix, ex⟩ (pyInt (pyDivND w (fl64N (max w h) 900)))
        (pyInt (pyDivND h (fl64N (max w h) 900)))) with ⟨e1, e2⟩ | ⟨e1, e2⟩
  · have E1 : (shrink_image ⟨w, h, pix, ex⟩).width
        = pyInt (pyDivND w (fl64N (max w h) 900)) := e1
    have E2 : (shrink_image ⟨w, h, pix, ex⟩).height
        = pyInt (pyDivND h (fl64N (max w h) 900)) := e2
    exact ⟨by rw [E1]; exact hw_le, by rw [E2]; exact hh_le,
      by rw [E1, E2]; exact hge⟩
  · have E1 : (shrink_image ⟨w, h, pix, ex⟩).width
        = pyInt (pyDivND h (fl64N (max w h) 900)) := e1
    have E2 : (shrink_image ⟨w, h, pix, ex⟩).height
        = pyInt (pyDivND w (fl64N (max w h) 900)) := e2
    refine ⟨by rw [E1]; exact hh_le, by rw [E2]; exact hw_le, ?_⟩
    rw [E1, E2, max_comm]
    exact hge

/-- C1 witness: the amended theorem applied to a concrete 1000 × 500
image. -/
theorem C1_shrink_dims_witness :
    (shrink_image ⟨1000, 500, [], []⟩).width ≤ 900 ∧
    (shrink_image ⟨1000, 500, [], []⟩).height ≤ 900 ∧
    899 ≤ max (shrink_image ⟨1000, 500, [], []⟩).width
      (shrink_image ⟨1000, 500, [], []⟩).height :=
  C1_shrink_dims 1000 500 [] [] (by norm_num) (by norm_num) (by norm_num)
    (by norm_num)

/-- Whether a byte is a UTF-8 continuation byte (`0x80`–`0xBF`). -/
def utf8Cont (b : Nat) : Bool := 128 ≤ b && b ≤ 191

/-- Strict UTF-8 decoding of a byte list, the semantics of Python's
`bytes.decode()` with its default codec: rejects truncated sequences,
overlong encodings, surrogates and code points beyond `0x10FFFF`, and
returns `none` exactly when Python raises `UnicodeDecodeError`.  The first
argument is recursion fuel, instantiated with the list length (each step
consumes at least one byte). -/
def utf8DecodeGo : Nat → List Nat → Option (List Char)
  | _, [] => some []
  | 0, _ :: _ => none
  | fuel + 1, b :: rest =>
    if b < 128 then
      (utf8DecodeGo fuel rest).map (fun cs => Char.ofNat b :: cs)
    else if 194 ≤ b && b ≤ 223 then
      match rest with
      | c1 :: rest2 =>
        if utf8Cont c1 then
          (utf8DecodeGo fuel rest2).map (fun cs =>
            Char.ofNat ((b - 192) * 64 + (c1 - 128)) :: cs)
        else none
      | [] => none
    else if 224 ≤ b && b ≤ 239 then
      match rest with
      | c1 :: c2 :: rest2 =>
        if (if b = 224 then decide (160 ≤ c1) && decide (c1 ≤ 191)
            else if b = 237 then decide (128 ≤ c1) && decide (c1 ≤ 159)
            else utf8Cont c1) && utf8Cont c2 then
          (utf8DecodeGo fuel rest2).map (fun cs =>
            Char.ofNat ((b - 224) * 4096 + (c1 - 128) * 64 + (c2 - 128)) :: cs)
        else none
      | _ => none
    else if 240 ≤ b && b ≤ 244 then
      match rest with
      | c1 :: c2 :: c3 :: rest2 =>
        if (if b = 240 then decide (144 ≤ c1) && decide (c1 ≤ 191)
            else if b = 244 then decide (128 ≤ c1) && decide (c1 ≤ 143)
            else utf8Cont c1) && utf8Cont c2 && utf8Cont c3 then
          (utf8DecodeGo fuel rest2).map (fun cs =>
            Char.ofNat ((b - 240) * 262144 + (c1 - 128) * 4096
              + (c2 - 128) * 64 + (c3 - 128)) :: cs)
        else none
      | _ => none
    else none

/-- `bytes.decode()` of Python: strict UTF-8, `none` on decode error. -/
def utf8Decode (bs : List Nat) : Option String :=
  (utf8DecodeGo bs.length bs).map fun cs => String.mk cs

/-- `str.replace("\0", "")` of the source: remove every null character. -/
def stripNulls (s : String) : String :=
  String.mk (s.toList.filter (fun c => c != Char.ofNat 0))

/-- One file of the photo directory: its path and the image `Image.open`
decodes it to, `none` when the file is not a decodable image (in which
case `Image.open` raises). -/
structure PhotoFile where
  path : String
  decoded : Option Image
deriving DecidableEq

/-- An entry yielded by the photo selector: `(photo_path, image, comment)`.
The comment keeps its dynamic Python type: the source converts bytes
values to text but passes any other stored value through unchanged. -/
abbrev Entry := String × Image × PyVal

/-- A hexadecimal digit character, for the byte-escape notation of
Python's `repr` of a bytes object. -/
def hexDigit (n : Nat) : Char :=
  "0123456789abcdef".toList.getD n '0'

/-- One byte as it appears inside Python's `repr` of a bytes object whose
delimiter has character code `q`: printable ASCII stands for itself; tab,
newline, carriage-return, the delimiter and the backslash are
backslash-escaped; every other byte is `\xHH`. -/
def pyByteRepr (q b : Nat) : List Char :=
  if b = 9 then ['\\', 't']
  else if b = 10 then ['\\', 'n']
  else if b = 13 then ['\\', 'r']
  else if b = q then ['\\', Char.ofNat q]
  else if b = 92 then ['\\', '\\']
  else if 32 ≤ b && b ≤ 126 then [Char.ofNat b]
  else ['\\', 'x', hexDigit (b / 16 % 16), hexDigit (b % 16)]

/-- Python's `repr` of a bytes object: single-quote delimited by default,
switching to a double-quote delimiter (with the single quote then left
unescaped) when the bytes contain a single quote but no double quote. -/
def pyBytesRepr (bs : List Nat) : String :=
  if bs.contains 39 && !bs.contains 34 then
    String.mk ('b' :: Char.ofNat 34
      :: ((bs.map (pyByteRepr 34)).flatten ++ [Char.ofNat 34]))
  else
    String.mk ('b' :: Char.ofNat 39
      :: ((bs.map (pyByteRepr 39)).flatten ++ [Char.ofNat 39]))

/-- `str(v)` / f-string interpolation of a dynamically typed value: a text
string interpolates as itself, an integer in decimal, a bytes object via
its `repr`. -/
def pyStr : PyVal → String
  | PyVal.vstr s => s
  | PyVal.vint n => toString n
  | PyVal.vbytes bs => pyBytesRepr bs

/-- The loop body of `get_most_recent_photos` for one directory entry:
open the image (`Except.error` when undecodable), shrink it, read tag
40092 from the shrunk image's EXIF with default `b""`; a bytes value is
UTF-8-decoded (`Except.error` models the uncaught `UnicodeDecodeError`),
null-stripped, and the file is skipped (`Except.ok none`) when the result
is empty; any other value is yielded as the comment unchanged. -/
def photoStep (f : PhotoFile) : Except Unit (Option Entry) :=
  match f.decoded with
  | none => Except.error ()
  | some img0 =>
    let image := shrink_image img0
    match (exifLookup image.exif 40092).getD (PyVal.vbytes []) with
    | PyVal.vbytes bs =>
      match utf8Decode bs with
      | none => Except.error ()
      | some s =>
        let s' := stripNulls s
        if s' = "" then Except.ok none
        else Except.ok (some (f.path, image, PyVal.vstr s'))
    | v => Except.ok (some (f.path, image, v))

/-- `get_most_recent_photos` of the source, forced to a list as
`tuple(...)` does in `main`: the directory listing is processed in order,
each file through `photoStep`; the first raised error aborts the whole
enumeration. -/
def get_most_recent_photos : List PhotoFile → Except Unit (List Entry)
  | [] => Except.ok []
  | f :: rest =>
    match photoStep f with
    | Except.error e => Except.error e
    | Except.ok none => get_most_recent_photos rest
    | Except.ok (some entry) =>
      (get_most_recent_photos rest).map (fun es => entry :: es)

/-- A photo file whose user-comment tag holds an empty *text* value
(not a bytes value). -/
def emptyStrCaptionFile : PhotoFile :=
  ⟨"a.jpg", some ⟨900, 900, [], [(40092, PyVal.vstr "")]⟩⟩

/-- C2 (counterexample): the selector's empty-caption filter only applies
to bytes-typed metadata values.  A file whose stored tag-40092 value is an
empty text string is yielded with an empty caption, so not every yielded
entry has a non-empty caption. -/
theorem C2_counterexample :
    get_most_recent_photos [emptyStrCaptionFile] =
      Except.ok [("a.jpg", ⟨900, 900, [], [(40092, PyVal.vstr "")]⟩,
        PyVal.vstr "")] ∧
    pyStr (PyVal.vstr "") = "" :=
  ⟨rfl, rfl⟩

/-- C2 (amended): exclusion is guaranteed only for metadata values that
are missing or bytes-typed: a bytes value whose decoded, null-stripped
text is empty is skipped, while a value of any other type (text string,
integer) is yielded unconditionally — even when it is empty. -/
theorem C2_selector_filter (f : PhotoFile) (img : Image)
    (hdec : f.decoded = some img) :
    (∀ bs s,
      (exifLookup (shrink_image img).exif 40092).getD (PyVal.vbytes [])
          = PyVal.vbytes bs →
      utf8Decode bs = some s → stripNulls s = "" →
      photoStep f = Except.ok none) ∧
    (∀ s,
      (exifLookup (shrink_image img).exif 40092).getD (PyVal.vbytes [])
          = PyVal.vstr s →
      photoStep f = Except.ok (some (f.path, shrink_image img, PyVal.vstr s))) ∧
    (∀ n,
      (exifLookup (shrink_image img).exif 40092).getD (PyVal.vbytes [])
          = PyVal.vint n →
      photoStep f = Except.ok (some (f.path, shrink_image img, PyVal.vint n))) := by
  refine ⟨?_, ?_, ?_⟩
  · intro bs s hv hu hs
    simp [photoStep, hdec, hv, hu, hs]
  · intro s hv
    simp [photoStep, hdec, hv]
  · intro n hv
    simp [photoStep, hdec, hv]

/-- C2 witness: a file carrying a non-empty text caption is yielded with
that caption. -/
theorem C2_selector_filter_witness :
    photoStep ⟨"w.jpg", some ⟨900, 900, [], [(40092, PyVal.vstr "hi")]⟩⟩ =
      Except.ok (some ("w.jpg",
        shrink_image ⟨900, 900, [], [(40092, PyVal.vstr "hi")]⟩,
        PyVal.vstr "hi")) :=
  (C2_selector_filter _ _ rfl).2.1 "hi" (by decide)

/-- A photo file whose user-comment tag holds bytes that are not valid
UTF-8 (a lone `0xFF` byte). -/
def badBytesFile : PhotoFile :=
  ⟨"b.jpg", some ⟨900, 900, [], [(40092, PyVal.vbytes [255])]⟩⟩

/-- C3 (counterexample): when the stored user-comment bytes are not
decodable, the code raises an uncaught `UnicodeDecodeError` (modelled as
`Except.error`) instead of treating the caption as the empty string and
silently excluding the file (which would give `Except.ok []`). -/
theorem C3_counterexample :
    get_most_recent_photos [badBytesFile] = Except.error () ∧
      get_most_recent_photos [badBytesFile] ≠ Except.ok [] := by
  refine ⟨rfl, ?_⟩
  intro h
  rw [show get_most_recent_photos [badBytesFile] = Except.error () from rfl] at h
  exact Except.noConfusion h

/-- C3 (amended): for a file whose *original, pre-normalization* image
stores a bytes value under tag 40092, the yielded caption is exactly the
null-stripped UTF-8 decoding of those original bytes (the value survives
normalization because resizing copies the EXIF dictionary and
`exif_transpose` deletes only the orientation tag — extraction happens on
the post-resize object and relies on this); an empty decoded caption
skips the file, and undecodable bytes abort the run with an error rather
than yielding an empty caption. -/
theorem C3_caption_from_bytes (f : PhotoFile) (img : Image) (bs : List Nat)
    (hdec : f.decoded = some img)
    (hb : exifLookup img.exif 40092 = some (PyVal.vbytes bs)) :
    (∀ s, utf8Decode bs = some s → stripNulls s ≠ "" →
      photoStep f =
        Except.ok (some (f.path, shrink_image img, PyVal.vstr (stripNulls s)))) ∧
    (∀ s, utf8Decode bs = some s → stripNulls s = "" →
      photoStep f = Except.ok none) ∧
    (utf8Decode bs = none → photoStep f = Except.error ()) := by
  have hb' : exifLookup (shrink_image img).exif 40092
      = some (PyVal.vbytes bs) := by
    rw [exifLookup_shrink_image img 40092 (by decide)]
    exact hb
  refine ⟨?_, ?_, ?_⟩
  · intro s hu hs
    simp [photoStep, hdec, hb', hu, hs]
  · intro s hu hs
    simp [photoStep, hdec, hb', hu, hs]
  · intro hu
    simp [photoStep, hdec, hb', hu]

/-- C3 witness: a file whose tag 40092 holds the bytes of `"ok"` is
yielded with caption `"ok"`. -/
theorem C3_caption_from_bytes_witness :
    photoStep ⟨"c.jpg", some ⟨900, 900, [], [(40092, PyVal.vbytes [111, 107])]⟩⟩ =
      Except.ok (some ("c.jpg",
        shrink_image ⟨900, 900, [], [(40092, PyVal.vbytes [111, 107])]⟩,
        PyVal.vstr (stripNulls "ok"))) :=
  (C3_caption_from_bytes _ _ [111, 107] rfl (by decide)).1 "ok" (by decide)
    (by decide)

/-- The base64 alphabet, in index order. -/
def b64Table : List Char :=
  "ABCDEFGHIJKLMNOPQRSTUVWXYZabcdefghijklmnopqrstuvwxyz0123456789+/".toList

/-- The base64 character for a 6-bit group. -/
def b64Char (n : Nat) : Char := b64Table.getD n '?'

/-- The 6-bit group a base64 character stands for, `none` for a
non-alphabet character such as the `=` padding. -/
def b64CharIdx (c : Char) : Option Nat := b64Table.findIdx? (fun d => d == c)

/-- `base64.b64encode` of the Python standard library on a byte list:
each 3-byte group becomes four alphabet characters; a trailing group of
one or two bytes is padded with `==` or `=`. -/
def b64encodeList : List Nat → List Char
  | [] => []
  | [a] => [b64Char (a / 4), b64Char (a % 4 * 16), '=', '=']
  | [a, b] => [b64Char (a / 4), b64Char (a % 4 * 16 + b / 16),
      b64Char (b % 16 * 4), '=']
  | a :: b :: c :: rest =>
    b64Char (a / 4) :: b64Char (a % 4 * 16 + b / 16)
      :: b64Char (b % 16 * 4 + c / 64) :: b64Char (c % 64)
      :: b64encodeList rest

/-- `base64.b64encode(...).decode()` of the source: the base64 text. -/
def b64encode (bs : List Nat) : String := String.mk (b64encodeList bs)

/-- `base64.b64decode` of the Python standard library: four characters at
a time; `=` padding is accepted only at the very end. -/
def b64decodeList : List Char → Option (List Nat)
  | [] => some []
  | c1 :: c2 :: c3 :: c4 :: rest =>
    match b64CharIdx c1, b64CharIdx c2, b64CharIdx c3, b64CharIdx c4 with
    | some s1, some s2, some s3, some s4 =>
      (b64decodeList rest).map (fun bs =>
        (s1 * 4 + s2 / 16) :: (s2 % 16 * 16 + s3 / 4) :: (s3 % 4 * 64 + s4) :: bs)
    | some s1, some s2, some s3, none =>
      if c4 = '=' ∧ rest = [] then
        some [s1 * 4 + s2 / 16, s2 % 16 * 16 + s3 / 4]
      else none
    | some s1, some s2, none, none =>
      if c3 = '=' ∧ c4 = '=' ∧ rest = [] then some [s1 * 4 + s2 / 16]
      else none
    | _, _, _, _ => none
  | _ => none

/-- `base64.b64decode` on a text string. -/
def b64decode (s : String) : Option (List Nat) := b64decodeList s.toList

theorem b64CharIdx_b64Char : ∀ s, s < 64 → b64CharIdx (b64Char s) = some s := by
  decide

theorem b64CharIdx_pad : b64CharIdx '=' = none := by decide

/-- Base64 round-trip on byte lists: decoding an encoding recovers the
original bytes. -/
theorem b64decodeList_b64encodeList (bs : List Nat)
    (h : ∀ b ∈ bs, b < 256) :
    b64decodeList (b64encodeList bs) = some bs := by
  induction bs using b64encodeList.induct with
  | case1 => rfl
  | case2 a =>
    have ha : a < 256 := h a (by simp)
    have h1 := b64CharIdx_b64Char (a / 4) (by omega)
    have h2 := b64CharIdx_b64Char (a % 4 * 16) (by omega)
    simp only [b64encodeList, b64decodeList, h1, h2, b64CharIdx_pad]
    simp
    omega
  | case3 a b =>
    have ha : a < 256 := h a (by simp)
    have hb : b < 256 := h b (by simp)
    have h1 := b64CharIdx_b64Char (a / 4) (by omega)
    have h2 := b64CharIdx_b64Char (a % 4 * 16 + b / 16) (by omega)
    have h3 := b64CharIdx_b64Char (b % 16 * 4) (by omega)
    simp only [b64encodeList, b64decodeList, h1, h2, h3, b64CharIdx_pad]
    simp
    omega
  | case4 a b c rest ih =>
    have ha : a < 256 := h a (by simp)
    have hb : b < 256 := h b (by simp)
    have hc : c < 256 := h c (by simp)
    have hrest : ∀ x ∈ rest, x < 256 := by
      intro x hx
      exact h x (by simp [hx])
    have h1 := b64CharIdx_b64Char (a / 4) (by omega)
    have h2 := b64CharIdx_b64Char (a % 4 * 16 + b / 16) (by omega)
    have h3 := b64CharIdx_b64Char (b % 16 * 4 + c / 64) (by omega)
    have h4 := b64CharIdx_b64Char (c % 64) (by omega)
    simp only [b64encodeList, b64decodeList, h1, h2, h3, h4, ih hrest,
      Option.map_some]
    have e1 : (a / 4) * 4 + (a % 4 * 16 + b / 16) / 16 = a := by omega
    have e2 : (a % 4 * 16 + b / 16) % 16 * 16 + (b % 16 * 4 + c / 64) / 4 = b := by
      omega
    have e3 : (b % 16 * 4 + c / 64) % 4 * 64 + c % 64 = c := by omega
    simp [e1, e2, e3]

/-- Base64 round-trip through the string forms used by the renderer. -/
theorem b64decode_b64encode (bs : List Nat) (h : ∀ b ∈ bs, b < 256) :
    b64decode (b64encode bs) = some bs := by
  unfold b64decode b64encode
  rw [show (String.mk (b64encodeList bs)).toList = b64encodeList bs from rfl]
  exact b64decodeList_b64encodeList bs h

/-- Model of the external JPEG encoder (`image.save(buffer, format="JPEG")`
of the Pillow library): an injective byte serialization of the bitmap that
records the dimensions (two bytes each, the shrunk dimensions are at most
900) followed by the pixel payload as bytes.  The source passes no EXIF to
`save`, so the encoding carries no metadata.  Stands in for the JPEG
codec, of which the program relies only on the round-trip of the
dimensions. -/
def jpegEncode (img : Image) : List Nat :=
  img.width / 256 :: img.width % 256 :: img.height / 256 :: img.height % 256
    :: img.pixels.map (fun p => p % 256)

/-- Model of the external JPEG decoder: recovers dimensions and pixel
payload from the serialization; no metadata. -/
def jpegDecode (bs : List Nat) : Option Image :=
  match bs with
  | b1 :: b2 :: b3 :: b4 :: px => some ⟨b1 * 256 + b2, b3 * 256 + b4, px, []⟩
  | _ => none

theorem jpegEncode_bytes_lt (img : Image)
    (hw : img.width < 65536) (hh : img.height < 65536) :
    ∀ b ∈ jpegEncode img, b < 256 := by
  intro b hb
  simp only [jpegEncode, List.mem_cons, List.mem_map] at hb
  rcases hb with h | h | h | h | ⟨p, _, h⟩ <;> omega

/-- A calendar date, the part of `datetime.datetime` the program uses. -/
structure Date where
  year : Nat
  month : Nat
  day : Nat
deriving DecidableEq

/-- The English month names used by `strftime`'s `%B`. -/
def monthName (m : Nat) : String :=
  ["January", "February", "March", "April", "May", "June", "July",
   "August", "September", "October", "November", "December"].getD (m - 1) ""

/-- `effective_date.strftime("%B %-d, %Y")` of the source: full month
name, day of the month without zero-padding (`%-d`), full year. -/
def strftimeBdY (d : Date) : String :=
  monthName d.month ++ " " ++ toString d.day ++ ", " ++ toString d.year

/-- `ReportData` of the source. -/
structure ReportData where
  effective_date : Date
  property_address : String
  author : String
  photo_list : List Entry
deriving DecidableEq

/-- The lines appended by the `for i, (photo_path, image, comment) in
enumerate(...)` loop of `render_report_data`, starting at index `i`:
a heading `#### {i + 1}. {comment}`, the embedded image reference, and a
`"\n"` separator line per entry. -/
def photoLines : Nat → List Entry → List String
  | _, [] => []
  | i, (_, image, comment) :: rest =>
    ("#### " ++ toString (i + 1) ++ ". " ++ pyStr comment)
      :: ("![](data:image/jpeg;base64," ++ b64encode (jpegEncode image)
            ++ "){width=90%}")
      :: "\n"
      :: photoLines (i + 1) rest

/-- The `lines` list built by `render_report_data`: three front-matter
lines, then the per-photo lines. -/
def render_lines (rd : ReportData) : List String :=
  ("% Home Owner's Report for " ++ rd.property_address)
    :: ("% " ++ rd.author)
    :: ("% " ++ strftimeBdY rd.effective_date)
    :: photoLines 0 rd.photo_list

/-- `"\n".join(lines)` of Python: the lines joined by single newlines. -/
def joinLines : List String → String
  | [] => ""
  | [s] => s
  | s :: rest => s ++ "\n" ++ joinLines rest

/-- `render_report_data` of the source: the joined markup text. -/
def render_report_data (rd : ReportData) : String :=
  joinLines (render_lines rd)

/-- Positional access into a line list (`none` past the end). -/
def lineAt : List String → Nat → Option String
  | [], _ => none
  | s :: _, 0 => some s
  | _ :: rest, n + 1 => lineAt rest n

theorem photoLines_length (l : List Entry) (k : Nat) :
    (photoLines k l).length = 3 * l.length := by
  induction l generalizing k with
  | nil => rfl
  | cons e rest ih =>
    obtain ⟨p, image, comment⟩ := e
    simp only [photoLines, List.length_cons, ih]
    omega

/-- The heading and image-reference lines of the `i`-th entry in a photo
line block that starts numbering at `k`. -/
theorem photoLines_lineAt (l : List Entry) (k i : Nat) (h : i < l.length) :
    lineAt (photoLines k l) (3 * i) =
      some ("#### " ++ toString (k + i + 1) ++ ". "
        ++ pyStr (l.get ⟨i, h⟩).2.2) ∧
    lineAt (photoLines k l) (3 * i + 1) =
      some ("![](data:image/jpeg;base64,"
        ++ b64encode (jpegEncode (l.get ⟨i, h⟩).2.1) ++ "){width=90%}") := by
  induction l generalizing k i with
  | nil => simp at h
  | cons e rest ih =>
    obtain ⟨p, image, comment⟩ := e
    cases i with
    | zero =>
      simp [photoLines, lineAt]
    | succ j =>
      have hj : j < rest.length := by simpa using h
      have e0 : 3 * (j + 1) = 3 * j + 1 + 1 + 1 := by ring
      have e1 : 3 * (j + 1) + 1 = (3 * j + 1) + 1 + 1 + 1 := by ring
      have hk : k + (j + 1) + 1 = (k + 1) + j + 1 := by ring
      constructor
      · rw [e0, hk]
        simp only [photoLines, lineAt]
        have := (ih (k + 1) j hj).1
        simpa using this
      · rw [e1]
        simp only [photoLines, lineAt]
        have := (ih (k + 1) j hj).2
        simpa using this

/-- C4: the rendered line list has exactly `3 + 3n` lines for `n` photo
entries — three front-matter lines and one heading, one image line and one
separator per entry — and the heading of the entry at 0-indexed position
`i` is `#### {i+1}. {caption}`: numbering is 1-indexed, strictly
increasing, and matches the input order. -/
theorem C4_render_numbering (rd : ReportData) :
    (render_lines rd).length = 3 + 3 * rd.photo_list.length ∧
    ∀ i, (h : i < rd.photo_list.length) →
      lineAt (render_lines rd) (3 + 3 * i) =
        some ("#### " ++ toString (i + 1) ++ ". "
          ++ pyStr (rd.photo_list.get ⟨i, h⟩).2.2) := by
  constructor
  · simp only [render_lines, List.length_cons, photoLines_length]
    omega
  · intro i h
    have e0 : 3 + 3 * i = 3 * i + 1 + 1 + 1 := by ring
    rw [e0]
    simp only [render_lines, lineAt]
    have := (photoLines_lineAt rd.photo_list 0 i h).1
    simpa using this

/-- C4 witness: the single-photo report has its heading `#### 1. <caption>`
as line 3. -/
theorem C4_render_numbering_witness :
    lineAt (render_lines ⟨⟨2024, 3, 4⟩, "123 Main St", "J. Smith",
        [("p.jpg", ⟨900, 600, [], []⟩, PyVal.vstr "Cracked tile")]⟩)
      (3 + 3 * 0) =
      some ("#### " ++ toString (0 + 1) ++ ". "
        ++ pyStr (([("p.jpg", ⟨900, 600, [], []⟩, PyVal.vstr "Cracked tile")]
           : List Entry).get ⟨0, by decide⟩).2.2) :=
  (C4_render_numbering _).2 0 (by decide)

/-- C7: the rendered markup always begins with exactly three front-matter
lines — the title derived from the property address, the author, and the
effective date as `%B %-d, %Y` (month name, unpadded day, year) — and
with an empty photo list the whole output is precisely these three lines
joined by newlines, with no image entries. -/
theorem C7_front_matter (rd : ReportData) :
    (render_lines rd).take 3 =
      ["% Home Owner's Report for " ++ rd.property_address,
       "% " ++ rd.author,
       "% " ++ strftimeBdY rd.effective_date] ∧
    (rd.photo_list = [] →
      render_report_data rd =
        "% Home Owner's Report for " ++ rd.property_address ++ "\n% "
          ++ rd.author ++ "\n% " ++ strftimeBdY rd.effective_date) := by
  constructor
  · simp [render_lines]
  · intro h
    simp only [render_report_data, render_lines, h, photoLines, joinLines]
    apply String.ext
    simp [List.append_assoc]

/-- C7 witness: the empty-directory report for a concrete date, with the
day not zero-padded. -/
theorem C7_front_matter_witness :
    render_report_data ⟨⟨2024, 3, 4⟩, "123 Main St", "J. Smith", []⟩ =
      "% Home Owner's Report for " ++ "123 Main St" ++ "\n% " ++ "J. Smith"
        ++ "\n% " ++ strftimeBdY ⟨2024, 3, 4⟩ ∧
    strftimeBdY ⟨2024, 3, 4⟩ = "March 4, 2024" :=
  ⟨(C7_front_matter _).2 rfl, rfl⟩

/-- C8: the image line of every entry is
`![](data:image/jpeg;base64,<text>){width=90%}` where `<text>` is the
base64 encoding of the JPEG encoding of that entry's normalized bitmap;
base64-decoding `<text>` recovers exactly those JPEG bytes, and JPEG
decoding them yields an image with the same dimensions as the entry's
bitmap (dimension hypotheses: the byte serialization stores each
dimension in two bytes, which the ≤ 900-pixel shrunk bitmaps satisfy). -/
theorem C8_data_uri (rd : ReportData) (i : Nat)
    (h : i < rd.photo_list.length)
    (hw : (rd.photo_list.get ⟨i, h⟩).2.1.width < 65536)
    (hh : (rd.photo_list.get ⟨i, h⟩).2.1.height < 65536) :
    lineAt (render_lines rd) (3 + 3 * i + 1) =
      some ("![](data:image/jpeg;base64,"
        ++ b64encode (jpegEncode (rd.photo_list.get ⟨i, h⟩).2.1)
        ++ "){width=90%}") ∧
    b64decode (b64encode (jpegEncode (rd.photo_list.get ⟨i, h⟩).2.1)) =
      some (jpegEncode (rd.photo_list.get ⟨i, h⟩).2.1) ∧
    ∃ dimg, jpegDecode (jpegEncode (rd.photo_list.get ⟨i, h⟩).2.1) = some dimg
      ∧ dimg.width = (rd.photo_list.get ⟨i, h⟩).2.1.width
      ∧ dimg.height = (rd.photo_list.get ⟨i, h⟩).2.1.height := by
  refine ⟨?_, ?_, ?_⟩
  · have e0 : 3 + 3 * i + 1 = (3 * i + 1) + 1 + 1 + 1 := by ring
    rw [e0]
    simp only [render_lines, lineAt]
    have := (photoLines_lineAt rd.photo_list 0 i h).2
    simpa using this
  · exact b64decode_b64encode _
      (jpegEncode_bytes_lt (rd.photo_list.get ⟨i, h⟩).2.1 hw hh)
  · refine ⟨_, rfl, ?_, ?_⟩ <;> simp [jpegEncode, jpegDecode] <;> omega

/-- C8 witness: the data-URI round-trip at a concrete one-photo report. -/
theorem C8_data_uri_witness :
    lineAt (render_lines ⟨⟨2024, 3, 4⟩, "123 Main St", "J. Smith",
        [("p.jpg", ⟨2, 3, [7, 300], []⟩, PyVal.vstr "Loose railing")]⟩)
      (3 + 3 * 0 + 1) =
      some ("![](data:image/jpeg;base64,"
        ++ b64encode (jpegEncode (([("p.jpg", ⟨2, 3, [7, 300], []⟩,
            PyVal.vstr "Loose railing")] : List Entry).get ⟨0, by decide⟩).2.1)
        ++ "){width=90%}") ∧
    b64decode (b64encode (jpegEncode (([("p.jpg", ⟨2, 3, [7, 300], []⟩,
        PyVal.vstr "Loose railing")] : List Entry).get ⟨0, by decide⟩).2.1)) =
      some (jpegEncode (([("p.jpg", ⟨2, 3, [7, 300], []⟩,
        PyVal.vstr "Loose railing")] : List Entry).get ⟨0, by decide⟩).2.1) ∧
    ∃ dimg, jpegDecode (jpegEncode (([("p.jpg", ⟨2, 3, [7, 300], []⟩,
        PyVal.vstr "Loose railing")] : List Entry).get ⟨0, by decide⟩).2.1)
        = some dimg
      ∧ dimg.width = (([("p.jpg", ⟨2, 3, [7, 300], []⟩,
          PyVal.vstr "Loose railing")] : List Entry).get ⟨0, by decide⟩).2.1.width
      ∧ dimg.height = (([("p.jpg", ⟨2, 3, [7, 300], []⟩,
          PyVal.vstr "Loose railing")] : List Entry).get ⟨0, by decide⟩).2.1.height :=
  C8_data_uri _ 0 (by decide) (by decide) (by decide)

/-- C10: the renderer is deterministic and a pure function of its input:
two `ReportData` values that agree on date, address, author and photo list
render to identical markup strings.  The embedding is a pure function
because the source assigns to no field of `report_data` and mutates no
entry of `photo_list`, so the input is left unchanged. -/
theorem C10_render_deterministic (rd1 rd2 : ReportData)
    (hd : rd1.effective_date = rd2.effective_date)
    (ha : rd1.property_address = rd2.property_address)
    (hau : rd1.author = rd2.author)
    (hp : rd1.photo_list = rd2.photo_list) :
    render_report_data rd1 = render_report_data rd2 := by
  cases rd1
  cases rd2
  simp_all

/-- C10 witness: two field-identical concrete reports render equal. -/
theorem C10_render_deterministic_witness :
    render_report_data ⟨⟨2024, 1, 2⟩, "A", "B",
        [("p.jpg", ⟨1, 1, [], []⟩, PyVal.vstr "x")]⟩ =
      render_report_data ⟨⟨2024, 1, 2⟩, "A", "B",
        [("p.jpg", ⟨1, 1, [], []⟩, PyVal.vstr "x")]⟩ :=
  C10_render_deterministic _ _ rfl rfl rfl rfl

/-- The filesystem state touched by `main`: the photo directory (`none`
when the path does not exist or is unreadable, in which case iterating it
raises), and the two output files in the working directory (`none` when
the file does not exist). -/
structure FS where
  photo_dir : Option (List PhotoFile)
  report_md : Option String
  report_html : Option String
deriving DecidableEq

/-- The externally visible effects of `main`, in the order performed. -/
inductive Ev where
  | writeMd
  | openHtml
  | runConverter
  | writeHtml
deriving DecidableEq

/-- `main` of the source, with the external converter (`markdown_to_html`,
a `pandoc` subprocess) injected as a function from markup text to HTML or
failure.  The steps, in source order: force `get_most_recent_photos` over
the directory (a missing directory or any per-file error raises here,
before anything is written); build `ReportData` and render the markup in
memory; write `report.md` (`print` appends a newline); open `report.html`
for writing, which truncates it to empty *before* the converter runs,
because the `with` block opens the file before `markdown_to_html` is
evaluated; run the converter; write its output.  A converter failure
propagates after the truncation.  Returns the outcome, the final
filesystem, and the ordered effect trace. -/
def main (fs : FS) (pandoc : String → Except Unit String)
    (today : Date) (address author : String) :
    Except Unit Unit × FS × List Ev :=
  match fs.photo_dir with
  | none => (Except.error (), fs, [])
  | some files =>
    match get_most_recent_photos files with
    | Except.error e => (Except.error e, fs, [])
    | Except.ok photos =>
      let report_data : ReportData := ⟨today, address, author, photos⟩
      let markdown_input := render_report_data report_data
      let fs1 := { fs with report_md := some (markdown_input ++ "\n") }
      let fs2 := { fs1 with report_html := some "" }
      match pandoc markdown_input with
      | Except.error e =>
        (Except.error e, fs2, [Ev.writeMd, Ev.openHtml, Ev.runConverter])
      | Except.ok html =>
        (Except.ok (), { fs2 with report_html := some (html ++ "\n") },
          [Ev.writeMd, Ev.openHtml, Ev.runConverter, Ev.writeHtml])

/-- C5: when the photo directory does not exist (or is unreadable), the
run fails with a fatal error before writing anything: the filesystem is
returned unchanged — neither `report.md` nor `report.html` is created or
modified — and the effect trace is empty. -/
theorem C5_missing_dir (fs : FS) (pandoc : String → Except Unit String)
    (today : Date) (address author : String)
    (h : fs.photo_dir = none) :
    main fs pandoc today address author = (Except.error (), fs, []) := by
  simp [main, h]

/-- C5 witness: a concrete run against a missing directory. -/
theorem C5_missing_dir_witness :
    main ⟨none, none, none⟩ (fun _ => Except.ok "") ⟨2024, 3, 4⟩
        "123 Main St" "J. Smith" =
      (Except.error (), ⟨none, none, none⟩, []) :=
  C5_missing_dir _ _ _ _ _ rfl

/-- C6: the markup is rendered fully in memory, then `report.md` is
written, and only then is the converter invoked — the effect trace of a
run whose converter fails is exactly `[writeMd, openHtml, runConverter]`,
and the final state holds the complete rendered report (plus the trailing
newline `print` adds) in `report.md` even though the run errors. -/
theorem C6_md_written_before_converter (fs : FS) (files : List PhotoFile)
    (photos : List Entry) (pandoc : String → Except Unit String)
    (today : Date) (address author : String)
    (hdir : fs.photo_dir = some files)
    (hsel : get_most_recent_photos files = Except.ok photos)
    (hfail : pandoc (render_report_data ⟨today, address, author, photos⟩)
      = Except.error ()) :
    main fs pandoc today address author =
      (Except.error (),
       { fs with
          report_md :=
            some (render_report_data ⟨today, address, author, photos⟩ ++ "\n"),
          report_html := some "" },
       [Ev.writeMd, Ev.openHtml, Ev.runConverter]) := by
  simp [main, hdir, hsel, hfail]

/-- C6 witness: a concrete empty-directory run with a failing converter
still has the complete markup in `report.md`. -/
theorem C6_md_written_before_converter_witness :
    main ⟨some [], none, none⟩ (fun _ => Except.error ()) ⟨2024, 3, 4⟩
        "123 Main St" "J. Smith" =
      (Except.error (),
       { (⟨some [], none, none⟩ : FS) with
          report_md :=
            some (render_report_data ⟨⟨2024, 3, 4⟩, "123 Main St", "J. Smith", []⟩
              ++ "\n"),
          report_html := some "" },
       [Ev.writeMd, Ev.openHtml, Ev.runConverter]) :=
  C6_md_written_before_converter _ [] [] _ _ _ _ rfl rfl rfl

/-- C9: `report.html` is opened for writing — and thereby created and
truncated to empty — before the converter is invoked, so after a converter
failure an empty `report.html` exists alongside the complete `report.md`. -/
theorem C9_html_truncated_on_failure (fs : FS) (files : List PhotoFile)
    (photos : List Entry) (pandoc : String → Except Unit String)
    (today : Date) (address author : String)
    (hdir : fs.photo_dir = some files)
    (hsel : get_most_recent_photos files = Except.ok photos)
    (hfail : pandoc (render_report_data ⟨today, address, author, photos⟩)
      = Except.error ()) :
    (main fs pandoc today address author).2.1.report_html = some "" ∧
    (main fs pandoc today address author).2.1.report_md =
      some (render_report_data ⟨today, address, author, photos⟩ ++ "\n") ∧
    (main fs pandoc today address author).1 = Except.error () := by
  simp [main, hdir, hsel, hfail]

/-- C9 witness: a concrete run with one captioned photo and a failing
converter leaves `report.html` created but empty. -/
theorem C9_html_truncated_on_failure_witness :
    (main ⟨some [⟨"c.jpg", some ⟨900, 900, [],
          [(40092, PyVal.vbytes [111, 107])]⟩⟩], none, none⟩
        (fun _ => Except.error ()) ⟨2024, 3, 4⟩ "123 Main St"
        "J. Smith").2.1.report_html = some "" ∧
    (main ⟨some [⟨"c.jpg", some ⟨900, 900, [],
          [(40092, PyVal.vbytes [111, 107])]⟩⟩], none, none⟩
        (fun _ => Except.error ()) ⟨2024, 3, 4⟩ "123 Main St"
        "J. Smith").2.1.report_md =
      some (render_report_data ⟨⟨2024, 3, 4⟩, "123 Main St", "J. Smith",
        [("c.jpg", shrink_image ⟨900, 900, [], [(40092, PyVal.vbytes [111, 107])]⟩,
          PyVal.vstr "ok")]⟩ ++ "\n") ∧
    (main ⟨some [⟨"c.jpg", some ⟨900, 900, [],
          [(40092, PyVal.vbytes [111, 107])]⟩⟩], none, none⟩
        (fun _ => Except.error ()) ⟨2024, 3, 4⟩ "123 Main St"
        "J. Smith").1 = Except.error () :=
  C9_html_truncated_on_failure _
    [⟨"c.jpg", some ⟨900, 900, [], [(40092, PyVal.vbytes [111, 107])]⟩⟩]
    [("c.jpg", shrink_image ⟨900, 900, [], [(40092, PyVal.vbytes [111, 107])]⟩,
      PyVal.vstr "ok")] _ _ _ _ rfl rfl rfl

end HouseReport
